import Mathlib

/-!
# Verification of IPython 2.3.1 session history store (`IPython/core/history.py`)

This file gives a shallow embedding of the history subsystem of IPython 2.3.1:
the `HistoryAccessor` read-only query layer over the SQLite file, the
`HistoryManager` mutation layer (in-memory logs, write-back caches, session
lifecycle, flush-with-retry policy), the `catch_corrupt_db` corruption-recovery
wrapper, and the pure range-specification parser `extract_hist_ranges`.

Modelling conventions:
* Python `str` is Lean `String` (operated on through `List Char`).
* SQLite tables are Lean lists kept in insertion (= rowid) order; a `SELECT`
  without `ORDER BY` returns rows in that order, and
  `ORDER BY session DESC, line DESC` is modelled by sorting with the
  ascending lexicographic order on `(session, line)` and reversing.
* The `DummyDB` null store (installed by `init_db` when `enabled` is false)
  is the `none` case of an `Option DBState` connection; its `execute`
  returns the empty list, as in the source.
* A SQLite transaction (`with conn:`) that hits an `IntegrityError` rolls
  back, so a failing bulk insert is modelled as returning `none` and leaving
  the table unchanged.
* Exceptions are modelled with `Except`/`Option` result types.
-/

deriving instance DecidableEq for Except

namespace IPyHist

/-- Python whitespace characters as used by `str.strip()` / `str.split()`
(ASCII subset, which covers all inputs relevant here). -/
def isPySpace (c : Char) : Bool :=
  c = ' ' || c = '\t' || c = '\n' || c = '\r' || c = '\x0b' || c = '\x0c'

/-- Python `s.rstrip('\n')`: remove trailing newline characters only. -/
def rstripNL (s : String) : String :=
  ⟨(s.toList.reverse.dropWhile (· = '\n')).reverse⟩

/-- Python `s.strip()`: remove leading and trailing whitespace. -/
def pyStrip (s : String) : String :=
  ⟨((s.toList.dropWhile isPySpace).reverse.dropWhile isPySpace).reverse⟩

/-- `HistoryManager._exit_re = re.compile(r"(exit|quit)(\s*\(.*\))?$")`,
applied with `re.match` (anchored at the start).  On a string with no
trailing newline (`store_inputs` strips its argument first), the regex
matches exactly when the string is `exit` or `quit` followed either by
nothing or by whitespace, `(`, any newline-free text, and a final `)`. -/
def exitMatch (s : String) : Bool :=
  let cs := s.toList
  let kw? : Option (List Char) :=
    if cs.take 4 = "exit".toList then some (cs.drop 4)
    else if cs.take 4 = "quit".toList then some (cs.drop 4)
    else none
  match kw? with
  | none => false
  | some rest =>
    rest.isEmpty ||
      (let ws := rest.takeWhile isPySpace
       match rest.drop ws.length with
       | '(' :: t =>
         match t.reverse with
         | ')' :: mid => mid.all (· ≠ '\n')
         | _ => false
       | _ => false)

/-- A row of the `history` table:
`(session integer, line integer, source text, source_raw text,
PRIMARY KEY (session, line))`. -/
structure HRow where
  session : Int
  line : Int
  source : String
  source_raw : String
deriving DecidableEq, Inhabited

/-- The payload component of a query result row: `_run_sql` returns the
selected source text alone, or paired with the left-joined output column
when `output` is true. -/
inductive Payload where
  | txt (s : String)
  | pair (s : String) (out : Option String)
deriving DecidableEq, Inhabited

/-- The state of a real (non-dummy) SQLite history database:
the `sessions` table (ids only; `session` is AUTOINCREMENT, so
`nextSession` is the id the next inserted row will get), the `history`
table and the `output_history` table, each in insertion order. -/
structure DBState where
  nextSession : Int
  sessions : List Int
  history : List HRow
  output_history : List (Int × Int × String)
deriving DecidableEq, Inhabited

/-- The mutable state of a `HistoryManager`.  `db = none` models the
`DummyDB` null store installed by `init_db` when `enabled` is false.
The fields `i00/i1/ii/iii` are the `_i00/_i/_ii/_iii` shift register;
the push of those values into the user namespace is an external
collaborator call and is not part of this state. -/
structure MState where
  enabled : Bool
  db : Option DBState
  session_number : Int
  input_hist_parsed : List String
  input_hist_raw : List String
  output_hist_reprs : List (Int × String)
  db_input_cache : List (Int × String × String)
  db_output_cache : List (Int × String)
  db_log_output : Bool
  db_cache_size : Int
  save_flag : Bool
  i00 : String
  i1 : String
  ii : String
  iii : String
deriving DecidableEq, Inhabited

/-- Association-list lookup used for `self.output_hist_reprs[line_num]` /
`.get(i)`. -/
def lookupAssoc (l : List (Int × String)) (k : Int) : Option String :=
  (l.find? fun p => p.1 == k).map (·.2)

/-- `HistoryManager.store_inputs(line_num, source, source_raw=None)`:
strip trailing newlines, silently discard exit/quit commands, otherwise
append to both in-memory logs and to the input write-back cache (setting
the save flag when the cache reaches `db_cache_size`), and rotate the
`_i*` shift register. -/
def store_inputs (st : MState) (line_num : Int) (source : String)
    (source_raw? : Option String) : MState :=
  let source_raw := source_raw?.getD source
  let source := rstripNL source
  let source_raw := rstripNL source_raw
  if exitMatch (pyStrip source_raw) then st
  else
    let cache := st.db_input_cache ++ [(line_num, source, source_raw)]
    { st with
      input_hist_parsed := st.input_hist_parsed ++ [source]
      input_hist_raw := st.input_hist_raw ++ [source_raw]
      db_input_cache := cache
      save_flag :=
        if (cache.length : Int) ≥ st.db_cache_size then true else st.save_flag
      iii := st.ii
      ii := st.i1
      i1 := st.i00
      i00 := source_raw }

/-- `HistoryManager.store_output(line_num)`: unless output logging is on
and a text repr exists for the line, do nothing; otherwise append to the
output write-back cache and signal the saver when `db_cache_size <= 1`. -/
def store_output (st : MState) (line_num : Int) : MState :=
  if !st.db_log_output then st
  else
    match lookupAssoc st.output_hist_reprs line_num with
    | none => st
    | some out =>
      let st' := { st with db_output_cache := st.db_output_cache ++ [(line_num, out)] }
      if st'.db_cache_size ≤ 1 then { st' with save_flag := true } else st'

/-- `HistoryManager.new_session(conn)` (guarded by `@needs_sqlite`):
insert a fresh `sessions` row and take its AUTOINCREMENT id as the new
`session_number`.  (With `enabled` false the decorator returns at once;
the `db = none` case cannot arise on an enabled, constructed manager.) -/
def new_session (st : MState) : MState :=
  if !st.enabled then st
  else
    match st.db with
    | none => st
    | some d =>
      { st with
        db := some { d with
          sessions := d.sessions ++ [d.nextSession]
          nextSession := d.nextSession + 1 }
        session_number := d.nextSession }

/-- `HistoryManager._writeout_input_cache(conn)`: inside one transaction,
`INSERT INTO history VALUES (session_number, line, source, source_raw)`
for every cached tuple.  A duplicate `(session, line)` primary key raises
`IntegrityError` and the transaction rolls back: modelled by returning
`none` (table unchanged). -/
def insertRows (sess : Int) (cache : List (Int × String × String))
    (hist : List HRow) : Option (List HRow) :=
  match cache with
  | [] => some hist
  | (ln, s, sr) :: rest =>
    if hist.any (fun r => r.session == sess && r.line == ln) then none
    else insertRows sess rest (hist ++ [⟨sess, ln, s, sr⟩])

/-- `HistoryManager._writeout_output_cache(conn)`: same transactional
insert for `output_history`. -/
def insertOutRows (sess : Int) (cache : List (Int × String))
    (oh : List (Int × Int × String)) : Option (List (Int × Int × String)) :=
  match cache with
  | [] => some oh
  | (ln, out) :: rest =>
    if oh.any (fun r => r.1 == sess && r.2.1 == ln) then none
    else insertOutRows sess rest (oh ++ [(sess, ln, out)])

/-- `HistoryManager.writeout_cache(conn)` (guarded by `@needs_sqlite`):
flush the input cache (on `IntegrityError`, open one brand-new session and
retry exactly once; a second `IntegrityError` is swallowed), clearing the
cache in the `finally`; then flush the output cache (conflicts swallowed),
clearing it in the `finally`. -/
def writeout_cache (st : MState) : MState :=
  if !st.enabled then st
  else
    match st.db with
    | none => st
    | some d =>
      let st1 :=
        match insertRows st.session_number st.db_input_cache d.history with
        | some h => { st with db := some { d with history := h } }
        | none =>
          let st' := new_session st
          match st'.db with
          | none => st'
          | some d' =>
            match insertRows st'.session_number st.db_input_cache d'.history with
            | some h => { st' with db := some { d' with history := h } }
            | none => st'
      let st2 := { st1 with db_input_cache := [] }
      match st2.db with
      | none => st2
      | some d2 =>
        let st3 :=
          match insertOutRows st2.session_number st2.db_output_cache d2.output_history with
          | some oh => { st2 with db := some { d2 with output_history := oh } }
          | none => st2
        { st3 with db_output_cache := [] }

/-! ## Accessor query layer (`HistoryAccessor`) -/

/-- Ascending lexicographic order on a history row's `(session, line)`
primary key. -/
def rowLE (a b : HRow) : Prop :=
  a.session < b.session ∨ (a.session = b.session ∧ a.line ≤ b.line)

instance : DecidableRel rowLE := fun a b => by
  unfold rowLE; infer_instance

/-- The SQL clause `ORDER BY session DESC, line DESC`: the table sorted
ascending by `(session, line)` and reversed. -/
def orderDesc (l : List HRow) : List HRow :=
  (List.insertionSort rowLE l).reverse

/-- The column picked by the `raw` flag: `source_raw` or `source`. -/
def selSource (raw : Bool) (r : HRow) : String :=
  if raw then r.source_raw else r.source

/-- `LEFT JOIN output_history USING (session, line)`: the joined `output`
column for one history row, `none` when absent. -/
def lookupOutput (oh : List (Int × Int × String)) (sess ln : Int) : Option String :=
  (oh.find? fun t => t.1 == sess && t.2.1 == ln).map (·.2.2)

/-- The SELECT list of `_run_sql`: a `(session, line, payload)` triple,
with the payload reshaped into an `(input, output)` pair when `output`
is true. -/
def fmtRow (oh : List (Int × Int × String)) (raw output : Bool) (r : HRow) :
    Int × Int × Payload :=
  (r.session, r.line,
    if output then .pair (selSource raw r) (lookupOutput oh r.session r.line)
    else .txt (selSource raw r))

/-- Python truthiness of the `stop` argument: `None` and `0` are falsy. -/
def pyTruthy (stop : Option Int) : Bool :=
  match stop with
  | none => false
  | some v => v != 0

/-- The row filter of `HistoryAccessor.get_range`: `session==? AND
line>=?` plus `line < ?` only when `stop` is truthy. -/
def rangeKeep (session start : Int) (stop : Option Int) (r : HRow) : Bool :=
  if pyTruthy stop then
    r.session == session && decide (start ≤ r.line) && decide (r.line < stop.getD 0)
  else
    r.session == session && decide (start ≤ r.line)

/-- `HistoryAccessor.get_range(session, start, stop, raw, output)`:
rows of one session in the half-open line range, in table (rowid) order
— the query has no `ORDER BY`, and SQLite returns the rows in rowid,
i.e. insertion, order.  On the `DummyDB` (`none`) connection `execute`
returns the empty list. -/
def acc_get_range (conn : Option DBState) (session start : Int)
    (stop : Option Int) (raw output : Bool) : List (Int × Int × Payload) :=
  match conn with
  | none => []
  | some d =>
    (d.history.filter (rangeKeep session start stop)).map
      (fmtRow d.output_history raw output)

/-- `HistoryAccessor.get_tail(n, raw, output, include_latest)`:
fetch `n` (or `n+1` when `include_latest` is false) rows ordered by
`(session DESC, line DESC)`, drop the first (most recent) one when
`include_latest` is false, and return the rest reversed (ascending).
(`HistoryAccessor.writeout_cache` is `pass`, so the accessor-level call
is read-only.) -/
def acc_get_tail (conn : Option DBState) (n : Nat) (raw output include_latest : Bool) :
    List (Int × Int × Payload) :=
  match conn with
  | none => []
  | some d =>
    let lim := if include_latest then n else n + 1
    let cur := ((orderDesc d.history).take lim).map (fmtRow d.output_history raw output)
    if include_latest then cur.reverse else (cur.drop 1).reverse

/-- SQLite `GLOB` matching restricted to the `*` and `?` wildcards the
docstring documents (character classes are not used by this code base). -/
def globMatch : List Char → List Char → Bool
  | [], [] => true
  | '*' :: ps, [] => globMatch ps []
  | '*' :: ps, c :: cs => globMatch ps (c :: cs) || globMatch ('*' :: ps) cs
  | [], _ :: _ => false
  | _ :: _, [] => false
  | '?' :: ps, _ :: cs => globMatch ps cs
  | p :: ps, c :: cs => p == c && globMatch ps cs
termination_by ps cs => (ps.length, cs.length)

/-- `GROUP BY` on a bare (non-aggregated) select: one row per distinct
value of the grouped column.  SQLite leaves the representative row
unspecified; we model keeping the first occurrence. -/
def dedupBy (key : HRow → String) : List HRow → List String → List HRow
  | [], _ => []
  | r :: rest, seen =>
    if key r ∈ seen then dedupBy key rest seen
    else r :: dedupBy key rest (key r :: seen)

/-- `HistoryAccessor.search(pattern, raw, search_raw, output, n, unique)`:
glob-filter on the searched column; optionally group by it; with a limit
`n`, order `(session DESC, line DESC)`, cap, and re-reverse to ascending;
with `unique` and no limit, order by `(session, line)`. -/
def acc_search (conn : Option DBState) (pattern : String)
    (raw search_raw output : Bool) (n : Option Nat) (unique : Bool) :
    List (Int × Int × Payload) :=
  match conn with
  | none => []
  | some d =>
    let col := fun r => if search_raw then r.source_raw else r.source
    let matched := d.history.filter (fun r => globMatch pattern.toList (col r).toList)
    let grouped := if unique then dedupBy col matched [] else matched
    match n with
    | some lim =>
      (((orderDesc grouped).take lim).map (fmtRow d.output_history raw output)).reverse
    | none =>
      let ordered := if unique then List.insertionSort rowLE grouped else grouped
      ordered.map (fmtRow d.output_history raw output)

/-! ## Manager query layer (`HistoryManager`) -/

/-- The session-reference resolution shared by `HistoryManager.get_range`
and `get_session_info`: `session <= 0` is relative to the current
session number. -/
def resolveSession (st : MState) (session : Int) : Int :=
  if session ≤ 0 then session + st.session_number else session

/-- `HistoryManager.get_session_info(session)` (via the accessor's
`@needs_sqlite` guarded query on the `sessions` table): the stored row
for the resolved id, or nothing.  The decorator's empty-list return on a
disabled manager and an absent row are both `none` here. -/
def hm_get_session_info (st : MState) (session : Int) : Option Int :=
  if !st.enabled then none
  else
    match st.db with
    | none => none
    | some d => d.sessions.find? (· == resolveSession st session)

/-- Python `range(a, b)` over integers. -/
def pyRangeList (a b : Int) : List Int :=
  (List.range (b - a).toNat).map (fun k => a + (k : Int))

/-- Python sequence indexing `l[i]`: negative indexes count from the
end; an index out of range raises `IndexError` (`none` here). -/
def pyIndex (l : List String) (i : Int) : Option String :=
  if 0 ≤ i then l.get? i.toNat
  else
    let j := (l.length : Int) + i
    if 0 ≤ j then l.get? j.toNat else none

/-- `HistoryManager._get_range_session(start, stop, raw, output)`: the
in-memory fast path over the current session's input log.  Falsy or
too-large `stop` is clamped to the log length, negative `start`/`stop`
are taken relative to it, and every yielded triple carries session `0`.
An out-of-range index raises `IndexError` (`Except.error`). -/
def get_range_session (st : MState) (start : Int) (stop : Option Int)
    (raw output : Bool) : Except Unit (List (Int × Int × Payload)) :=
  let ih := if raw then st.input_hist_raw else st.input_hist_parsed
  let n : Int := ih.length
  let start := if start < 0 then start + n else start
  let stop : Int :=
    match stop with
    | none => n
    | some v => if v == 0 || n < v then n else if v < 0 then v + n else v
  (pyRangeList start stop).mapM fun i =>
    match pyIndex ih i with
    | none => .error ()
    | some s =>
      .ok (0, i,
        if output then Payload.pair s (lookupAssoc st.output_hist_reprs i)
        else Payload.txt s)

/-- `HistoryManager.get_range(session, start, stop, raw, output)`:
resolve the session reference; serve the current session from the
in-memory log, other sessions from the database. -/
def hm_get_range (st : MState) (session start : Int) (stop : Option Int)
    (raw output : Bool) : Except Unit (List (Int × Int × Payload)) :=
  let sess := resolveSession st session
  if sess == st.session_number then get_range_session st start stop raw output
  else .ok (acc_get_range st.db sess start stop raw output)

/-- `HistoryManager.get_tail` is inherited from the accessor but its
`writeout_cache` call dispatches to the manager's flushing version. -/
def hm_get_tail (st : MState) (n : Nat) (raw output include_latest : Bool) :
    List (Int × Int × Payload) :=
  acc_get_tail (writeout_cache st).db n raw output include_latest

/-- `HistoryAccessor.get_last_session_id()`: the session id of the first
record of `get_tail(n=1, include_latest=True)`, or nothing. -/
def get_last_session_id (st : MState) : Option Int :=
  (hm_get_tail st 1 true false true).head?.map (·.1)

/-! ## Range parser (`range_re` / `extract_hist_ranges`) -/

/-- Python exceptions `extract_hist_ranges` can raise: `TypeError` from
`end += 1` when `end` is `None`, and `AssertionError` from the
`endsess >= startsess` assertion. -/
inductive PyErr where
  | typeError
  | assertionError
deriving DecidableEq, Inhabited

/-- A successful `range_re.match` of one whitespace-separated token:
the captured groups, with session references already converted by
`int(g.replace("~", "-"))` (so `~N` is `-N`), line numbers as plain
integers.  `stop` is the group named `end` in the source. -/
structure RMatch where
  startsess : Option Int
  start : Option Int
  sep : Option Char
  endsess : Option Int
  stop : Option Int
deriving DecidableEq, Inhabited

/-- ASCII decimal digit (Python `\d` on the inputs in scope). -/
def isDigitCh (c : Char) : Bool := '0' ≤ c && c ≤ '9'

/-- Value of a nonempty digit run. -/
def natOfDigits (ds : List Char) : Nat :=
  ds.foldl (fun acc c => 10 * acc + (c.toNat - '0'.toNat)) 0

/-- Maximal digit run at the head of the input (at least one digit),
with the remaining input. -/
def parseDigits (cs : List Char) : Option (Nat × List Char) :=
  let ds := cs.takeWhile isDigitCh
  if ds.isEmpty then none else some (natOfDigits ds, cs.drop ds.length)

/-- Try to match a session group `(~?\d+)/`: an optional `~`, a digit
run, and a slash.  If the full group is not present nothing is consumed
— exactly the alternative the regex engine ends up with, since a digit
run followed by `/` can never be matched by the `start`/`end` groups
(the leftover `/` fails both the separator class and `$`). -/
def trySess (cs : List Char) : Option Int × List Char :=
  let (neg, cs1) :=
    match cs with
    | '~' :: t => (true, t)
    | _ => (false, cs)
  match parseDigits cs1 with
  | some (v, '/' :: rest) => (some (if neg then -(v : Int) else (v : Int)), rest)
  | _ => (none, cs)

/-- `range_re.match(range_str)` for the anchored verbose pattern
`((?P<startsess>~?\d+)/)? (?P<start>\d+)?
((?P<sep>[-:]) ((?P<endsess>~?\d+)/)? (?P<end>\d+))? $`.
Digit runs are maximal (a shorter run would leave a digit where only a
separator or the end of the token may follow), so the backtracking
search is deterministic. -/
def matchRange (cs : List Char) : Option RMatch :=
  let (ss, cs1) := trySess cs
  let (st, cs2) :=
    match parseDigits cs1 with
    | some (v, rest) => (some (v : Int), rest)
    | none => (none, cs1)
  match cs2 with
  | [] => some ⟨ss, st, none, none, none⟩
  | c :: cs3 =>
    if c = '-' || c = ':' then
      let (es, cs4) := trySess cs3
      match parseDigits cs4 with
      | some (v, []) => some ⟨ss, st, some c, es, some (v : Int)⟩
      | _ => none
    else none

/-- `startsess = rmatch.group("startsess") or "0"`, converted to int. -/
def startsessVal (m : RMatch) : Int := m.startsess.getD 0

/-- `endsess = rmatch.group("endsess") or startsess`, converted to int
(the default is the startsess *string*, whose integer value is
`startsessVal`). -/
def endsessVal (m : RMatch) : Int := m.endsess.getD (startsessVal m)

/-- The `yield` clauses of `extract_hist_ranges` for one matched token,
after `start`/`end` have been fixed up: the assertion, the
single-session case, and the per-session expansion of a cross-session
range. -/
def emitRanges (startsess endsess start : Int) (stop : Option Int) :
    Except PyErr (List (Int × Int × Option Int)) :=
  if endsess < startsess then .error .assertionError
  else if endsess = startsess then .ok [(startsess, start, stop)]
  else
    .ok ((startsess, start, none) ::
      ((List.range (endsess - startsess - 1).toNat).map
        (fun j => (startsess + 1 + (j : Int), (1 : Int), (none : Option Int))) ++
      [(endsess, 1, stop)]))

/-- The per-token body of the `extract_hist_ranges` loop: an unmatched
token is skipped (`continue` — yields nothing); a matched token with no
`start` group and no `startsess` group is also skipped; with no `start`
group, `start = 1` and `end = None`, so a `-` separator raises
`TypeError` from `end += 1` (before the session groups are read). -/
def tokenRanges (cs : List Char) : Except PyErr (List (Int × Int × Option Int)) :=
  match matchRange cs with
  | none => .ok []
  | some m =>
    match m.start with
    | some s =>
      let e : Int := match m.stop with | some e => e | none => s + 1
      let e := if m.sep = some '-' then e + 1 else e
      emitRanges (startsessVal m) (endsessVal m) s (some e)
    | none =>
      if m.startsess = none then .ok []
      else if m.sep = some '-' then .error .typeError
      else emitRanges (startsessVal m) (endsessVal m) 1 none

/-- Helper for `pySplitWs`: accumulate the current token (reversed). -/
def pySplitWsAux (cur : List Char) : List Char → List (List Char)
  | [] => if cur.isEmpty then [] else [cur.reverse]
  | c :: rest =>
    if isPySpace c then
      if cur.isEmpty then pySplitWsAux [] rest
      else cur.reverse :: pySplitWsAux [] rest
    else pySplitWsAux (c :: cur) rest

/-- Python `s.split()`: split on whitespace runs, discarding empties. -/
def pySplitWs (cs : List Char) : List (List Char) :=
  pySplitWsAux [] cs

/-- `extract_hist_ranges(ranges_str)`, run to exhaustion: the
concatenation of every token's yields, or the first exception. -/
def extract_hist_ranges (s : String) : Except PyErr (List (Int × Int × Option Int)) :=
  go (pySplitWs s.toList)
where
  go : List (List Char) → Except PyErr (List (Int × Int × Option Int))
    | [] => .ok []
    | t :: ts => do
      let a ← tokenRanges t
      let b ← go ts
      .ok (a ++ b)

/-! ## Corruption recovery (`catch_corrupt_db`) -/

/-- Index of the last occurrence of `c` in `p` (Python `str.rfind`),
`-1` when absent. -/
def rfindIdx (c : Char) (p : List Char) : Int :=
  match p.reverse.findIdx? (· == c) with
  | none => -1
  | some j => (p.length : Int) - 1 - (j : Int)

/-- `os.path.splitext` (posixpath): split off the extension at the last
dot of the basename, unless the basename consists only of leading dots
up to there. -/
def splitext (p : String) : String × String :=
  let cs := p.toList
  let sepI := rfindIdx '/' cs
  let dotI := rfindIdx '.' cs
  if sepI < dotI &&
      ((cs.drop (sepI + 1).toNat).take (dotI - sepI - 1).toNat).any (· != '.') then
    (⟨cs.take dotI.toNat⟩, ⟨cs.drop dotI.toNat⟩)
  else (p, "")

/-- What one `@catch_corrupt_db`-wrapped call did: the value handed back
to the caller, the quarantine rename target if any, and whether the
database was reinitialized / a warning printed. -/
structure RecoverOutcome (α : Type) where
  result : List α
  renamedTo : Option String
  reinitialized : Bool
  warned : Bool
deriving DecidableEq

/-- The `@catch_corrupt_db` wrapper: a `DatabaseError` from the wrapped
call is caught; if `hist_file` is a regular file it is renamed to
`<base>-corrupt<ext>`, `init_db()` builds a fresh database at the
original path, a warning is printed and `[]` is returned; otherwise
(e.g. `:memory:`) the error is re-raised. -/
def catch_corrupt_db {α : Type} (hist_file : String) (isFile : Bool)
    (call : Except Unit (List α)) : Except Unit (RecoverOutcome α) :=
  match call with
  | .ok r => .ok ⟨r, none, false, false⟩
  | .error _ =>
    if isFile then
      let be := splitext hist_file
      .ok ⟨[], some (be.1 ++ "-corrupt" ++ be.2), true, true⟩
    else .error ()

/-! ## Auxiliary definitions used by the statements -/

/-- A token acceptable to the claim under verification: either it does
not match `range_re`, or it matches with `endsess >= startsess` and is
not of the crashing shape (no `start` group together with a `-`
separator). -/
def tokOK (cs : List Char) : Bool :=
  match matchRange cs with
  | none => true
  | some m =>
    decide (startsessVal m ≤ endsessVal m) &&
      (m.start.isSome || m.startsess.isNone || decide (m.sep ≠ some '-'))

/-- Store a batch of `(source, source_raw)` entries through
`store_inputs`, numbering lines consecutively from `k`. -/
def storeSeq (st : MState) (k : Int) : List (String × String) → MState
  | [] => st
  | (s, sr) :: rest => storeSeq (store_inputs st k s (some sr)) (k + 1) rest

/-- The input-cache tuples produced by such a batch. -/
def tagRows (k : Int) : List (String × String) → List (Int × String × String)
  | [] => []
  | (s, sr) :: rest => (k, s, sr) :: tagRows (k + 1) rest

/-- The `history` rows such a batch flushes under session `sess`. -/
def newRows (sess k : Int) : List (String × String) → List HRow
  | [] => []
  | (s, sr) :: rest => ⟨sess, k, s, sr⟩ :: newRows sess (k + 1) rest

/-- The query triples the round-trip claim expects back: the stored
entries in insertion order, with the payload selected by `raw`. -/
def expectedRows (sess k : Int) (raw : Bool) :
    List (String × String) → List (Int × Int × Payload)
  | [] => []
  | (s, sr) :: rest =>
    (sess, k, Payload.txt (if raw then sr else s)) :: expectedRows sess (k + 1) raw rest

/-- An ordinary entry for the round-trip claim: not an exit/quit
command, and with no trailing newlines (so `store_inputs` stores it
verbatim). -/
def goodEntry (e : String × String) : Prop :=
  exitMatch (pyStrip e.2) = false ∧ rstripNL e.1 = e.1 ∧ rstripNL e.2 = e.2

instance : DecidablePred goodEntry := fun e => by
  unfold goodEntry; infer_instance

/-- The `(session, line)` primary key of a history row. -/
def keyOf (r : HRow) : Int × Int := (r.session, r.line)

/-- The `history` table's primary-key constraint: all `(session, line)`
pairs distinct. -/
def NodupKeys (l : List HRow) : Prop :=
  l.Pairwise (fun a b => keyOf a ≠ keyOf b)

/-! ## Theorems -/

/-- C2: an input whose stripped `source_raw` matches the exit/quit
pattern is silently discarded by `store_inputs`: the whole manager state
— in particular both in-memory input logs and the input write-back
cache — is exactly unchanged, so the entry can never be retrieved from
memory or reach durable storage. -/
theorem store_inputs_discards_exit (st : MState) (line_num : Int)
    (source source_raw : String)
    (h : exitMatch (pyStrip (rstripNL source_raw)) = true) :
    store_inputs st line_num source (some source_raw) = st ∧
    (store_inputs st line_num source (some source_raw)).input_hist_parsed =
      st.input_hist_parsed ∧
    (store_inputs st line_num source (some source_raw)).input_hist_raw =
      st.input_hist_raw ∧
    (store_inputs st line_num source (some source_raw)).db_input_cache =
      st.db_input_cache := by
  have heq : store_inputs st line_num source (some source_raw) = st := by
    simp [store_inputs, h]
  exact ⟨heq, by rw [heq], by rw [heq], by rw [heq]⟩

/-- Witness for `store_inputs_discards_exit` at `"  quit (1)  "`. -/
theorem store_inputs_discards_exit_witness :
    exitMatch (pyStrip (rstripNL "  quit (1)  ")) = true ∧
    store_inputs default 5 "print(1)" (some "  quit (1)  ") = default :=
  ⟨by decide,
   (store_inputs_discards_exit default 5 "print(1)" "  quit (1)  " (by decide)).1⟩

/-- C3: the `catch_corrupt_db` wrapper.  A `DatabaseError` from the
wrapped call, when the history path is a regular file, results in the
file being renamed to `<name>-corrupt<ext>` (splitting the configured
path at its extension), a fresh database reinitialized, a warning, and
an empty list returned with no error propagated; when the path is not a
real file the error is re-raised; a successful call passes through
untouched.  The final conjunct checks that the rename target really is
the original path with `-corrupt` spliced in before the extension. -/
theorem catch_corrupt_db_policy {α : Type} (hist_file : String)
    (isFile : Bool) (r : List α) :
    (catch_corrupt_db hist_file true (.error ()) : Except Unit (RecoverOutcome α)) =
      .ok ⟨[], some ((splitext hist_file).1 ++ "-corrupt" ++ (splitext hist_file).2),
           true, true⟩ ∧
    (catch_corrupt_db hist_file false (.error ()) : Except Unit (RecoverOutcome α)) =
      .error () ∧
    catch_corrupt_db hist_file isFile (.ok r) = .ok ⟨r, none, false, false⟩ ∧
    (splitext hist_file).1 ++ (splitext hist_file).2 = hist_file := by
  refine ⟨rfl, rfl, rfl, ?_⟩
  unfold splitext
  dsimp only
  split
  · apply String.ext
    simp [String.data_append]
  · exact String.append_empty hist_file

/-- C6: `extract_hist_ranges("~8/5-~7/4 2")` yields exactly
`[(-8, 5, None), (-7, 1, 5), (0, 2, 3)]`: the cross-session token
expands into a first triple running to the end of session `~8` and a
final triple from line 1 to the exclusive stop 5 (the `-` separator
adds 1 to the inclusive end 4), and the bare token `2` yields
`(0, 2, 3)`. -/
theorem extract_hist_ranges_example :
    extract_hist_ranges "~8/5-~7/4 2" =
      .ok [(-8, 5, none), (-7, 1, some 5), (0, 2, some 3)] := by
  decide

/-- C7 counterexample: the token written `5` `/` `-` `3` (a session
prefix, then the `-` separator, then an end line) matches `range_re`
(groups: startsess `5`, no start, separator `-`, no endsess, end `3`),
its end-session defaults to its start-session (so `endsess >= startsess`
holds), and yet `extract_hist_ranges` raises — a `TypeError` from
`end += 1` on `end = None`, not the assertion. -/
theorem extract_hist_ranges_typeerror :
    matchRange ("5/-3".toList) = some ⟨some 5, none, some '-', none, some 3⟩ ∧
    endsessVal ⟨some 5, none, some '-', none, some 3⟩ =
      startsessVal ⟨some 5, none, some '-', none, some 3⟩ ∧
    extract_hist_ranges "5/-3" = .error .typeError ∧
    PyErr.typeError ≠ PyErr.assertionError := by
  decide

/-- Helper for C7: `emitRanges` only raises on `endsess < startsess`. -/
theorem emitRanges_ok (a b s : Int) (e : Option Int) (hab : ¬ b < a) :
    ∃ l, emitRanges a b s e = .ok l := by
  unfold emitRanges
  rw [if_neg hab]
  by_cases he : b = a
  · exact ⟨_, if_pos he⟩
  · exact ⟨_, if_neg he⟩

/-- Helper for C7: a token that satisfies `tokOK` never raises. -/
theorem tokenRanges_ok_of_tokOK (cs : List Char) (h : tokOK cs = true) :
    ∃ l, tokenRanges cs = .ok l := by
  unfold tokOK at h
  unfold tokenRanges
  cases hm : matchRange cs with
  | none => exact ⟨[], rfl⟩
  | some m =>
    rw [hm] at h
    simp only [Bool.and_eq_true, decide_eq_true_eq, Bool.or_eq_true] at h
    obtain ⟨hsess, hshape⟩ := h
    have hnlt : ¬ endsessVal m < startsessVal m := not_lt.mpr hsess
    obtain ⟨ss, sst, ssep, ses, sstop⟩ := m
    cases sst with
    | some s =>
      dsimp only
      exact emitRanges_ok _ _ _ _ hnlt
    | none =>
      cases ss with
      | none => exact ⟨[], by simp⟩
      | some v =>
        have hsep : ssep ≠ some '-' := by
          simpa using hshape
        dsimp only
        rw [if_neg (by simp), if_neg hsep]
        exact emitRanges_ok _ _ _ _ hnlt

/-- Helper for C7: the whole loop succeeds when every token is
acceptable. -/
theorem extract_go_ok (ts : List (List Char))
    (h : ∀ tok ∈ ts, tokOK tok = true) :
    ∃ l, extract_hist_ranges.go ts = .ok l := by
  induction ts with
  | nil => exact ⟨[], rfl⟩
  | cons t ts ih =>
    obtain ⟨a, ha⟩ := tokenRanges_ok_of_tokOK t (h t (by simp))
    obtain ⟨b, hb⟩ := ih (fun tok htok => h tok (by simp [htok]))
    refine ⟨a ++ b, ?_⟩
    simp only [extract_hist_ranges.go, ha, hb]
    rfl

/-- C7 (amended): for every range-specification string in which every
token that matches the grammar has `endsess >= startsess` *and* is not
of the crashing shape — a session prefix, no start line, then a `-`
separator, which raises `TypeError` when the open end `None` is
incremented — `extract_hist_ranges` terminates without raising, and
tokens that fail to match the grammar are silently skipped, yielding
nothing. -/
theorem extract_hist_ranges_no_raise (s : String)
    (h : ∀ tok ∈ pySplitWs s.toList, tokOK tok = true) :
    (∃ l, extract_hist_ranges s = .ok l) ∧
    (∀ cs, matchRange cs = none → tokenRanges cs = .ok []) := by
  constructor
  · exact extract_go_ok (pySplitWs s.toList) h
  · intro cs hcs
    unfold tokenRanges
    rw [hcs]

/-- Witness for `extract_hist_ranges_no_raise` on `"1-3 bogus ~2/"`. -/
theorem extract_hist_ranges_no_raise_witness :
    (∃ l, extract_hist_ranges "1-3 bogus ~2/" = .ok l) ∧
    (∀ cs, matchRange cs = none → tokenRanges cs = .ok []) :=
  extract_hist_ranges_no_raise "1-3 bogus ~2/" (by decide)

/-- C10: passing `stop=0` to `HistoryManager.get_range` behaves exactly
like `stop=None` — both are falsy, so both the in-memory fast path and
the database path read to the end of the session. -/
theorem get_range_stop_zero (st : MState) (session start : Int)
    (raw output : Bool) :
    hm_get_range st session start (some 0) raw output =
      hm_get_range st session start none raw output := by
  unfold hm_get_range
  dsimp only
  split
  · unfold get_range_session
    rfl
  · unfold acc_get_range
    cases st.db with
    | none => rfl
    | some d =>
      simp only [Except.ok.injEq]
      congr 1

/-- C8: with `enabled=false` the accessor substitutes the `DummyDB`
null store (`init_db` sets `db = DummyDB()`, modelled `db = none`), so
every query — `get_tail`, `search`, `get_range`, `get_session_info`,
`get_last_session_id` — returns an empty sequence or nothing, and every
mutation — `store_inputs`, `store_output`, `new_session`,
`writeout_cache` — leaves the durable store untouched (`store_inputs` /
`store_output` only touch in-memory state; `new_session` and
`writeout_cache` return under the `needs_sqlite` guard with the whole
state unchanged).  All operations are total, so none raises. -/
theorem disabled_null_store (st : MState) (n : Nat) (pattern : String)
    (sess start : Int) (stop : Option Int)
    (raw search_raw output il unique : Bool) (nopt : Option Nat)
    (ln : Int) (src : String) (sr : Option String)
    (hen : st.enabled = false) (hdb : st.db = none) :
    acc_get_tail st.db n raw output il = [] ∧
    acc_search st.db pattern raw search_raw output nopt unique = [] ∧
    acc_get_range st.db sess start stop raw output = [] ∧
    hm_get_session_info st sess = none ∧
    get_last_session_id st = none ∧
    (store_inputs st ln src sr).db = st.db ∧
    (store_output st ln).db = st.db ∧
    new_session st = st ∧
    writeout_cache st = st := by
  have hwc : writeout_cache st = st := by
    unfold writeout_cache
    rw [hen]
    rfl
  refine ⟨by rw [hdb]; rfl, by rw [hdb]; rfl, by rw [hdb]; rfl,
          by unfold hm_get_session_info; rw [hen]; rfl, ?_, ?_, ?_,
          by unfold new_session; rw [hen]; rfl, hwc⟩
  · unfold get_last_session_id hm_get_tail
    rw [hwc, hdb]
    rfl
  · unfold store_inputs
    dsimp only
    split
    · rfl
    · rfl
  · unfold store_output
    dsimp only
    split
    · rfl
    · split
      · rfl
      · split
        · rfl
        · rfl

/-- Witness for `disabled_null_store` on a concrete disabled manager. -/
theorem disabled_null_store_witness :
    acc_get_tail (MState.db ⟨false, none, 0, [""], [""], [], [], [], false, 0,
        false, "", "", "", ""⟩) 3 true false false = [] ∧
    acc_search (MState.db ⟨false, none, 0, [""], [""], [], [], [], false, 0,
        false, "", "", "", ""⟩) "*foo*" true true false none false = [] ∧
    acc_get_range (MState.db ⟨false, none, 0, [""], [""], [], [], [], false, 0,
        false, "", "", "", ""⟩) 1 1 none true false = [] ∧
    hm_get_session_info ⟨false, none, 0, [""], [""], [], [], [], false, 0,
        false, "", "", "", ""⟩ 1 = none ∧
    get_last_session_id ⟨false, none, 0, [""], [""], [], [], [], false, 0,
        false, "", "", "", ""⟩ = none ∧
    (store_inputs ⟨false, none, 0, [""], [""], [], [], [], false, 0,
        false, "", "", "", ""⟩ 1 "x" (some "x")).db = none ∧
    (store_output ⟨false, none, 0, [""], [""], [], [], [], false, 0,
        false, "", "", "", ""⟩ 1).db = none ∧
    new_session ⟨false, none, 0, [""], [""], [], [], [], false, 0,
        false, "", "", "", ""⟩ =
      ⟨false, none, 0, [""], [""], [], [], [], false, 0, false, "", "", "", ""⟩ ∧
    writeout_cache ⟨false, none, 0, [""], [""], [], [], [], false, 0,
        false, "", "", "", ""⟩ =
      ⟨false, none, 0, [""], [""], [], [], [], false, 0, false, "", "", "", ""⟩ :=
  disabled_null_store _ 3 "*foo*" 1 1 none true true false false false none
    1 "x" (some "x") rfl rfl

/-- Helper for C9: if every successful element of an `Except`-valued
`mapM` has first component `0`, so does every element of the result. -/
theorem mapM_first_component (f : Int → Except Unit (Int × Int × Payload))
    (hf : ∀ i t, f i = .ok t → t.1 = 0) :
    ∀ (xs : List Int) (l : List (Int × Int × Payload)),
      xs.mapM f = .ok l → ∀ t ∈ l, t.1 = 0 := by
  intro xs
  induction xs with
  | nil =>
    intro l h
    rw [List.mapM_nil] at h
    cases h
    intro t ht
    cases ht
  | cons x xs ih =>
    intro l h
    rw [List.mapM_cons] at h
    rcases hx : f x with _ | t0
    all_goals rw [hx] at h
    · cases h
    · rcases hxs : List.mapM f xs with _ | l'
      all_goals rw [hxs] at h
      · cases h
      · cases h
        intro t ht
        rcases List.mem_cons.mp ht with h1 | h2
        · rw [h1]
          exact hf x t0 hx
        · exact ih l' hxs t h2

/-- Helper for C9: every triple the in-memory fast path yields has `0`
as its session component. -/
theorem get_range_session_all_zero (st : MState) (start : Int)
    (stop : Option Int) (raw output : Bool) (l : List (Int × Int × Payload))
    (h : get_range_session st start stop raw output = .ok l) :
    ∀ t ∈ l, t.1 = 0 := by
  unfold get_range_session at h
  refine mapM_first_component _ ?_ _ l h
  intro i t hit
  rcases hx : pyIndex (if raw then st.input_hist_raw else st.input_hist_parsed) i with _ | s
  all_goals rw [hx] at hit
  · cases hit
  · cases hit
    rfl

/-- C9: on the in-memory fast path (resolved session equal to the
current `session_number`), every triple `HistoryManager.get_range`
yields carries `0` as its session component; on the database path the
triples carry the stored (real) session id of the queried session. -/
theorem get_range_session_id_shape (st : MState) (session start : Int)
    (stop : Option Int) (raw output : Bool) :
    (resolveSession st session = st.session_number →
      ∀ l, hm_get_range st session start stop raw output = .ok l →
        ∀ t ∈ l, t.1 = 0) ∧
    (resolveSession st session ≠ st.session_number →
      hm_get_range st session start stop raw output =
        .ok (acc_get_range st.db (resolveSession st session) start stop raw output) ∧
      ∀ t ∈ acc_get_range st.db (resolveSession st session) start stop raw output,
        t.1 = resolveSession st session) := by
  constructor
  · intro hres l hl
    unfold hm_get_range at hl
    rw [if_pos (by simpa using hres)] at hl
    exact get_range_session_all_zero st start stop raw output l hl
  · intro hres
    constructor
    · unfold hm_get_range
      rw [if_neg (by simpa using hres)]
    · intro t ht
      unfold acc_get_range at ht
      rcases hdb : st.db with _ | d
      all_goals rw [hdb] at ht
      · cases ht
      · obtain ⟨r, hr, hfmt⟩ := List.mem_map.mp ht
        have hk := (List.mem_filter.mp hr).2
        have hsess : r.session = resolveSession st session := by
          unfold rangeKeep at hk
          split at hk <;> simp only [Bool.and_eq_true, beq_iff_eq] at hk
          · exact hk.1.1
          · exact hk.1
        rw [← hfmt]
        unfold fmtRow
        exact hsess

/-- Witness for `get_range_session_id_shape`: a manager whose current
session holds entries `A`, `B` serves them from memory with session
component `0`. -/
theorem get_range_session_id_shape_witness :
    ∀ t ∈ [((0 : Int), (1 : Int), Payload.txt "A"), (0, 2, Payload.txt "B")],
      t.1 = 0 :=
  (get_range_session_id_shape
      ⟨true, some ⟨2, [1], [], []⟩, 1, ["", "a", "b"], ["", "A", "B"], [],
        [], [], false, 0, false, "", "", "", ""⟩ 0 1 none true false).1
    (by decide) _ (by decide)

/-- Helper: `writeout_cache` when the first bulk insert succeeds — no
new session is opened, the history becomes the inserted table, the
input cache is cleared. -/
theorem writeout_cache_success (st : MState) (d : DBState) (h : List HRow)
    (hen : st.enabled = true) (hdb : st.db = some d)
    (hins : insertRows st.session_number st.db_input_cache d.history = some h) :
    (writeout_cache st).db_input_cache = [] ∧
    (writeout_cache st).session_number = st.session_number ∧
    Option.map DBState.history (writeout_cache st).db = some h ∧
    Option.map DBState.nextSession (writeout_cache st).db = some d.nextSession ∧
    Option.map DBState.sessions (writeout_cache st).db = some d.sessions := by
  unfold writeout_cache
  rw [hen, hdb]
  simp only [Bool.not_true, Bool.false_eq_true, if_false, hins]
  rcases hout : insertOutRows st.session_number st.db_output_cache d.output_history
    with _ | oh
  all_goals simp [hout]

/-- Helper: `writeout_cache` when the first bulk insert hits an
`IntegrityError` — exactly one brand-new session is opened (the next
AUTOINCREMENT id, bumping the counter once), the insert is retried once
against it, a second conflict abandons the entries, and the input cache
is cleared regardless. -/
theorem writeout_cache_conflict (st : MState) (d : DBState)
    (hen : st.enabled = true) (hdb : st.db = some d)
    (hins : insertRows st.session_number st.db_input_cache d.history = none) :
    (writeout_cache st).db_input_cache = [] ∧
    (writeout_cache st).session_number = d.nextSession ∧
    Option.map DBState.nextSession (writeout_cache st).db = some (d.nextSession + 1) ∧
    Option.map DBState.sessions (writeout_cache st).db =
      some (d.sessions ++ [d.nextSession]) ∧
    Option.map DBState.history (writeout_cache st).db =
      some ((insertRows d.nextSession st.db_input_cache d.history).getD d.history) := by
  unfold writeout_cache new_session
  rw [hen, hdb]
  simp only [Bool.not_true, Bool.false_eq_true, if_false, hins]
  rcases hins2 : insertRows d.nextSession st.db_input_cache d.history with _ | h2
  · rcases hout : insertOutRows d.nextSession st.db_output_cache d.output_history
      with _ | oh
    all_goals simp [hins2, hout]
  · rcases hout : insertOutRows d.nextSession st.db_output_cache d.output_history
      with _ | oh
    all_goals simp [hins2, hout]

/-- C4: the flush policy of `HistoryManager.writeout_cache` on an
enabled manager with a real connection: the pending input tuples are
inserted under the current session id; on a uniqueness conflict exactly
one brand-new session is opened (one new `sessions` row, AUTOINCREMENT
counter bumped once) and the insert is retried exactly once against the
new id; if the retry also conflicts the entries are abandoned (history
unchanged); and in every case the input cache is empty on return. -/
theorem writeout_cache_retry_policy (st : MState) (d : DBState)
    (hen : st.enabled = true) (hdb : st.db = some d) :
    (writeout_cache st).db_input_cache = [] ∧
    (insertRows st.session_number st.db_input_cache d.history ≠ none →
      (writeout_cache st).session_number = st.session_number ∧
      Option.map DBState.nextSession (writeout_cache st).db = some d.nextSession ∧
      Option.map DBState.sessions (writeout_cache st).db = some d.sessions ∧
      Option.map DBState.history (writeout_cache st).db =
        insertRows st.session_number st.db_input_cache d.history) ∧
    (insertRows st.session_number st.db_input_cache d.history = none →
      (writeout_cache st).session_number = d.nextSession ∧
      Option.map DBState.nextSession (writeout_cache st).db = some (d.nextSession + 1) ∧
      Option.map DBState.sessions (writeout_cache st).db =
        some (d.sessions ++ [d.nextSession]) ∧
      Option.map DBState.history (writeout_cache st).db =
        some ((insertRows d.nextSession st.db_input_cache d.history).getD d.history)) := by
  rcases hins : insertRows st.session_number st.db_input_cache d.history with _ | h
  · obtain ⟨h1, h2, h3, h4, h5⟩ := writeout_cache_conflict st d hen hdb hins
    exact ⟨h1, fun hc => absurd rfl hc, fun _ => ⟨h2, h3, h4, h5⟩⟩
  · obtain ⟨h1, h2, h3, h4, h5⟩ := writeout_cache_success st d h hen hdb hins
    exact ⟨h1, fun _ => ⟨h2, h4, h5, h3⟩, fun hc => absurd hc (by simp)⟩

/-- Witness for `writeout_cache_retry_policy` on a double-conflict
state: both session 1 and the fresh session 2 already hold line 1, so
the cached entry is abandoned, yet the cache ends empty. -/
theorem writeout_cache_retry_policy_witness :
    (writeout_cache ⟨true, some ⟨2, [1], [⟨1, 1, "x", "x"⟩, ⟨2, 1, "y", "y"⟩], []⟩,
        1, [""], [""], [], [(1, "a", "A")], [], false, 0, false,
        "", "", "", ""⟩).db_input_cache = [] ∧
    (insertRows 1 [(1, "a", "A")] [⟨1, 1, "x", "x"⟩, ⟨2, 1, "y", "y"⟩] ≠ none →
      (writeout_cache ⟨true, some ⟨2, [1], [⟨1, 1, "x", "x"⟩, ⟨2, 1, "y", "y"⟩], []⟩,
          1, [""], [""], [], [(1, "a", "A")], [], false, 0, false,
          "", "", "", ""⟩).session_number = 1 ∧
      Option.map DBState.nextSession
        (writeout_cache ⟨true, some ⟨2, [1], [⟨1, 1, "x", "x"⟩, ⟨2, 1, "y", "y"⟩], []⟩,
          1, [""], [""], [], [(1, "a", "A")], [], false, 0, false,
          "", "", "", ""⟩).db = some 2 ∧
      Option.map DBState.sessions
        (writeout_cache ⟨true, some ⟨2, [1], [⟨1, 1, "x", "x"⟩, ⟨2, 1, "y", "y"⟩], []⟩,
          1, [""], [""], [], [(1, "a", "A")], [], false, 0, false,
          "", "", "", ""⟩).db = some [1] ∧
      Option.map DBState.history
        (writeout_cache ⟨true, some ⟨2, [1], [⟨1, 1, "x", "x"⟩, ⟨2, 1, "y", "y"⟩], []⟩,
          1, [""], [""], [], [(1, "a", "A")], [], false, 0, false,
          "", "", "", ""⟩).db =
        insertRows 1 [(1, "a", "A")] [⟨1, 1, "x", "x"⟩, ⟨2, 1, "y", "y"⟩]) ∧
    (insertRows 1 [(1, "a", "A")] [⟨1, 1, "x", "x"⟩, ⟨2, 1, "y", "y"⟩] = none →
      (writeout_cache ⟨true, some ⟨2, [1], [⟨1, 1, "x", "x"⟩, ⟨2, 1, "y", "y"⟩], []⟩,
          1, [""], [""], [], [(1, "a", "A")], [], false, 0, false,
          "", "", "", ""⟩).session_number = 2 ∧
      Option.map DBState.nextSession
        (writeout_cache ⟨true, some ⟨2, [1], [⟨1, 1, "x", "x"⟩, ⟨2, 1, "y", "y"⟩], []⟩,
          1, [""], [""], [], [(1, "a", "A")], [], false, 0, false,
          "", "", "", ""⟩).db = some 3 ∧
      Option.map DBState.sessions
        (writeout_cache ⟨true, some ⟨2, [1], [⟨1, 1, "x", "x"⟩, ⟨2, 1, "y", "y"⟩], []⟩,
          1, [""], [""], [], [(1, "a", "A")], [], false, 0, false,
          "", "", "", ""⟩).db = some [1, 2] ∧
      Option.map DBState.history
        (writeout_cache ⟨true, some ⟨2, [1], [⟨1, 1, "x", "x"⟩, ⟨2, 1, "y", "y"⟩], []⟩,
          1, [""], [""], [], [(1, "a", "A")], [], false, 0, false,
          "", "", "", ""⟩).db =
        some ((insertRows 2 [(1, "a", "A")] [⟨1, 1, "x", "x"⟩, ⟨2, 1, "y", "y"⟩]).getD
          [⟨1, 1, "x", "x"⟩, ⟨2, 1, "y", "y"⟩])) :=
  writeout_cache_retry_policy
    ⟨true, some ⟨2, [1], [⟨1, 1, "x", "x"⟩, ⟨2, 1, "y", "y"⟩], []⟩,
      1, [""], [""], [], [(1, "a", "A")], [], false, 0, false, "", "", "", ""⟩
    ⟨2, [1], [⟨1, 1, "x", "x"⟩, ⟨2, 1, "y", "y"⟩], []⟩ rfl rfl

/-- Helper for C1: `store_inputs` on a good entry appends it to both
in-memory logs and the input cache and rotates the shift register. -/
theorem store_inputs_good (st : MState) (k : Int) (s sr : String)
    (h : goodEntry (s, sr)) :
    store_inputs st k s (some sr) = { st with
      input_hist_parsed := st.input_hist_parsed ++ [s]
      input_hist_raw := st.input_hist_raw ++ [sr]
      db_input_cache := st.db_input_cache ++ [(k, s, sr)]
      save_flag :=
        if ((st.db_input_cache ++ [(k, s, sr)]).length : Int) ≥ st.db_cache_size
        then true else st.save_flag
      iii := st.ii
      ii := st.i1
      i1 := st.i00
      i00 := sr } := by
  obtain ⟨h1, h2, h3⟩ := h
  simp only [goodEntry] at h1 h2 h3
  unfold store_inputs
  simp only [Option.getD_some, h2, h3, h1, Bool.false_eq_true, if_false]

/-- Helper for C1: a batch of good entries leaves the connection, the
session, and the output cache alone, and appends exactly its tagged
tuples to the input cache. -/
theorem storeSeq_state : ∀ (es : List (String × String)) (st : MState) (k : Int),
    (∀ e ∈ es, goodEntry e) →
    (storeSeq st k es).db = st.db ∧
    (storeSeq st k es).enabled = st.enabled ∧
    (storeSeq st k es).session_number = st.session_number ∧
    (storeSeq st k es).db_output_cache = st.db_output_cache ∧
    (storeSeq st k es).db_input_cache = st.db_input_cache ++ tagRows k es := by
  intro es
  induction es with
  | nil =>
    intro st k _
    simp [storeSeq, tagRows]
  | cons e rest ih =>
    intro st k h
    obtain ⟨s, sr⟩ := e
    have hg : goodEntry (s, sr) := h (s, sr) (by simp)
    have hrec := ih (store_inputs st k s (some sr)) (k + 1)
      (fun e he => h e (by simp [he]))
    have hstep : (store_inputs st k s (some sr)).db_input_cache =
        st.db_input_cache ++ [(k, s, sr)] := by
      rw [store_inputs_good st k s sr hg]
    simp only [storeSeq]
    refine ⟨hrec.1.trans (by rw [store_inputs_good st k s sr hg]),
            hrec.2.1.trans (by rw [store_inputs_good st k s sr hg]),
            hrec.2.2.1.trans (by rw [store_inputs_good st k s sr hg]),
            hrec.2.2.2.1.trans (by rw [store_inputs_good st k s sr hg]), ?_⟩
    rw [hrec.2.2.2.2, hstep, List.append_assoc]
    rfl

/-- Helper for C1: inserting consecutively numbered tuples starting at
`k` into a table whose session-`sess` rows all have line numbers below
`k` never conflicts and appends the corresponding rows. -/
theorem insertRows_fresh : ∀ (es : List (String × String)) (hist : List HRow)
    (k sess : Int), (∀ r ∈ hist, r.session = sess → r.line < k) →
    insertRows sess (tagRows k es) hist = some (hist ++ newRows sess k es) := by
  intro es
  induction es with
  | nil =>
    intro hist k sess _
    simp [tagRows, insertRows, newRows]
  | cons e rest ih =>
    intro hist k sess h
    obtain ⟨s, sr⟩ := e
    have hany : (hist.any fun r => r.session == sess && r.line == k) = false := by
      rw [List.any_eq_false]
      intro r hr
      simp only [Bool.and_eq_true, beq_iff_eq, not_and]
      intro hs hl
      have := h r hr hs
      omega
    have hinv : ∀ r ∈ hist ++ [(⟨sess, k, s, sr⟩ : HRow)],
        r.session = sess → r.line < k + 1 := by
      intro r hr hs
      rcases List.mem_append.mp hr with h1 | h2
      · have := h r h1 hs
        omega
      · simp only [List.mem_singleton] at h2
        rw [h2]
        show k < k + 1
        omega
    simp only [tagRows, insertRows, hany, Bool.false_eq_true, if_false]
    refine (ih (hist ++ [⟨sess, k, s, sr⟩]) (k + 1) sess hinv).trans ?_
    simp [newRows, List.append_assoc]

/-- Helper for C1: rows of other sessions are invisible to
`get_range`'s filter. -/
theorem filter_other_sessions (hist : List HRow) (sess start : Int)
    (stop : Option Int) (h : ∀ r ∈ hist, r.session ≠ sess) :
    hist.filter (rangeKeep sess start stop) = [] := by
  rw [List.filter_eq_nil_iff]
  intro r hr
  unfold rangeKeep
  split
  · simp only [Bool.and_eq_true, beq_iff_eq]
    rintro ⟨⟨hs, _⟩, _⟩
    exact h r hr hs
  · simp only [Bool.and_eq_true, beq_iff_eq]
    rintro ⟨hs, _⟩
    exact h r hr hs

/-- Helper for C1: the freshly flushed rows all survive the
`get_range(session, 1, L)` filter and come back as the expected
triples, in insertion order. -/
theorem newRows_query : ∀ (es : List (String × String)) (k : Int) (L : Int)
    (sess : Int) (oh : List (Int × Int × String)) (raw : Bool),
    1 ≤ k → k + (es.length : Int) ≤ L →
    ((newRows sess k es).filter (rangeKeep sess 1 (some L))).map
        (fmtRow oh raw false) = expectedRows sess k raw es := by
  intro es
  induction es with
  | nil =>
    intro k L sess oh raw _ _
    simp [newRows, expectedRows]
  | cons e rest ih =>
    intro k L sess oh raw hk hL
    obtain ⟨s, sr⟩ := e
    simp only [List.length_cons] at hL
    have hL2 : k < L := by
      push_cast at hL
      omega
    have hL' : k + 1 + (rest.length : Int) ≤ L := by
      push_cast at hL ⊢
      omega
    have hne : (L != 0) = true := by
      simp only [bne_iff_ne, ne_eq]
      omega
    have hkeep : rangeKeep sess 1 (some L) ⟨sess, k, s, sr⟩ = true := by
      simp [rangeKeep, pyTruthy, hne, hk, hL2]
    simp only [newRows]
    rw [List.filter_cons, hkeep, if_pos rfl, List.map_cons,
        ih (k + 1) L sess oh raw (by omega) hL']
    simp [expectedRows, fmtRow, selSource]

/-- C1 (round-trip): starting from an enabled manager whose current
session has no rows on disk and whose input cache is empty, storing `N`
non-exit entries via `store_inputs` with line numbers `1..N`, flushing
with `writeout_cache`, and reading back with
`get_range(session, 1, N+1)` yields exactly the `N` entries in original
insertion order, the payload being `source_raw` when `raw` is true and
`source` when `raw` is false. -/
theorem store_flush_roundtrip (st : MState) (d : DBState)
    (es : List (String × String)) (raw : Bool)
    (hen : st.enabled = true) (hdb : st.db = some d)
    (hcache : st.db_input_cache = [])
    (hfresh : ∀ r ∈ d.history, r.session ≠ st.session_number)
    (hgood : ∀ e ∈ es, goodEntry e) :
    acc_get_range (writeout_cache (storeSeq st 1 es)).db st.session_number 1
        (some ((es.length : Int) + 1)) raw false =
      expectedRows st.session_number 1 raw es := by
  obtain ⟨hdb1, hen1, hsess1, _, hcache1⟩ := storeSeq_state es st 1 hgood
  have hins : insertRows (storeSeq st 1 es).session_number
      (storeSeq st 1 es).db_input_cache d.history =
      some (d.history ++ newRows st.session_number 1 es) := by
    rw [hsess1, hcache1, hcache, List.nil_append]
    exact insertRows_fresh es d.history 1 st.session_number
      (fun r hr hs => absurd hs (hfresh r hr))
  obtain ⟨_, _, hhist, _, _⟩ := writeout_cache_success (storeSeq st 1 es) d _
    (hen1.trans hen) (hdb1.trans hdb) hins
  rcases hwdb : (writeout_cache (storeSeq st 1 es)).db with _ | d2
  · rw [hwdb] at hhist
    cases hhist
  · rw [hwdb] at hhist
    simp only [Option.map_some', Option.some.injEq] at hhist
    unfold acc_get_range
    dsimp only
    rw [hhist, List.filter_append,
        filter_other_sessions d.history st.session_number 1 _ hfresh,
        List.nil_append]
    exact newRows_query es 1 ((es.length : Int) + 1) st.session_number
      d2.output_history raw le_rfl (by omega)

/-- Witness for `store_flush_roundtrip`: two entries round-trip through
a concrete manager. -/
theorem store_flush_roundtrip_witness :
    acc_get_range
        (writeout_cache (storeSeq
          ⟨true, some ⟨2, [1], [], []⟩, 1, [""], [""], [], [], [], false, 0,
            false, "", "", "", ""⟩ 1 [("a", "A"), ("b", "B")])).db
        1 1 (some 3) true false =
      expectedRows 1 1 true [("a", "A"), ("b", "B")] :=
  store_flush_roundtrip
    ⟨true, some ⟨2, [1], [], []⟩, 1, [""], [""], [], [], [], false, 0,
      false, "", "", "", ""⟩
    ⟨2, [1], [], []⟩ [("a", "A"), ("b", "B")] true rfl rfl rfl
    (by decide) (by decide)

instance : IsTotal HRow rowLE :=
  ⟨fun a b => by unfold rowLE; omega⟩

instance : IsTrans HRow rowLE :=
  ⟨fun a b c hab hbc => by unfold rowLE at hab hbc ⊢; omega⟩

/-- Helper for C5: the `include_latest=false` branch of `get_tail` is
the ascending sort of the table with everything before the last `n+1`
rows dropped and the final (most recent) row removed. -/
theorem acc_get_tail_false_eq (d : DBState) (n : Nat) (raw output : Bool) :
    acc_get_tail (some d) n raw output false =
      (((List.insertionSort rowLE d.history).drop
          (d.history.length - (n + 1))).dropLast).map
        (fmtRow d.output_history raw output) := by
  unfold acc_get_tail orderDesc
  simp only [Bool.false_eq_true, if_false]
  rw [List.take_reverse, List.length_insertionSort, List.map_reverse,
      List.drop_one, List.tail_reverse, List.reverse_reverse]
  exact (List.map_dropLast _ _).symm

/-- Helper for C5: the `include_latest=true` branch of `get_tail` is
the ascending sort of the table with everything before the last `n`
rows dropped. -/
theorem acc_get_tail_true_eq (d : DBState) (n : Nat) (raw output : Bool) :
    acc_get_tail (some d) n raw output true =
      ((List.insertionSort rowLE d.history).drop (d.history.length - n)).map
        (fmtRow d.output_history raw output) := by
  unfold acc_get_tail orderDesc
  simp only [eq_self_iff_true, if_true]
  rw [List.take_reverse, List.length_insertionSort, List.map_reverse,
      List.reverse_reverse]

/-- Helper for C5: sorting preserves primary-key distinctness. -/
theorem nodupKeys_insertionSort (hist : List HRow) (h : NodupKeys hist) :
    NodupKeys (List.insertionSort rowLE hist) :=
  ((List.perm_insertionSort rowLE hist).pairwise_iff
    (fun hxy => hxy ∘ Eq.symm)).mpr h

/-- Helper for C5: in a sorted table with distinct keys, the last row
is the unique maximum under `(session, line)`. -/
theorem getLast_insertionSort_eq_max (hist : List HRow) (r : HRow)
    (hnd : NodupKeys hist) (hr : r ∈ hist) (hmax : ∀ x ∈ hist, rowLE x r)
    (hne : List.insertionSort rowLE hist ≠ []) :
    (List.insertionSort rowLE hist).getLast hne = r := by
  set A := List.insertionSort rowLE hist with hA
  set m := A.getLast hne with hm
  have hperm := List.perm_insertionSort rowLE hist
  have hmA : m ∈ hist := hperm.mem_iff.mp (List.getLast_mem hne)
  have hrA : r ∈ A := hperm.mem_iff.mpr hr
  have hsorted : List.Sorted rowLE A := List.sorted_insertionSort rowLE hist
  have hndA : NodupKeys A := nodupKeys_insertionSort hist hnd
  have hsplit : A.dropLast ++ [m] = A := List.dropLast_append_getLast hne
  rcases List.mem_append.mp (hsplit ▸ hrA) with hdrop | hlast
  · exfalso
    have h1 : rowLE r m := by
      have hp : List.Pairwise rowLE (A.dropLast ++ [m]) := by
        rw [hsplit]
        exact hsorted
      exact (List.pairwise_append.mp hp).2.2 r hdrop m (by simp)
    have h2 : rowLE m r := hmax m hmA
    have hkey : keyOf r = keyOf m := by
      unfold rowLE at h1 h2
      unfold keyOf
      have : r.session = m.session ∧ r.line = m.line := by omega
      rw [this.1, this.2]
    have hpk : List.Pairwise (fun a b => keyOf a ≠ keyOf b) (A.dropLast ++ [m]) := by
      rw [hsplit]
      exact hndA
    exact (List.pairwise_append.mp hpk).2.2 r hdrop m (by simp) hkey
  · exact (List.mem_singleton.mp hlast).symm

/-- Helper for C5: every row before the last position has a different
primary key from the last row. -/
theorem mem_dropLast_key_ne (A : List HRow) (hnd : NodupKeys A) (hne : A ≠ []) :
    ∀ x ∈ A.dropLast, keyOf x ≠ keyOf (A.getLast hne) := by
  intro x hx
  have hsplit : A.dropLast ++ [A.getLast hne] = A := List.dropLast_append_getLast hne
  have hpk : List.Pairwise (fun a b => keyOf a ≠ keyOf b)
      (A.dropLast ++ [A.getLast hne]) := by
    rw [hsplit]
    exact hnd
  exact (List.pairwise_append.mp hpk).2.2 x hx _ (by simp)

/-- Helper for C5: a short-enough suffix with its last element removed
avoids the list's last element entirely. -/
theorem dropLast_drop_subset (A : List HRow) (j : Nat) (hne : A.drop j ≠ []) :
    ∀ x ∈ (A.drop j).dropLast, x ∈ A.dropLast := by
  intro x hx
  have hsplit : A.dropLast = A.take j ++ (A.drop j).dropLast := by
    conv_lhs => rw [← List.take_append_drop j A]
    rw [List.dropLast_append, if_neg (by simp [List.isEmpty_eq_false, hne])]
  rw [hsplit]
  exact List.mem_append.mpr (Or.inr hx)

/-- Helper for C5: the last element of a nonempty suffix is the last
element of the list. -/
theorem getLast_drop_eq (A : List HRow) (j : Nat) (hne : A.drop j ≠ [])
    (hne' : A ≠ []) : (A.drop j).getLast hne = A.getLast hne' := by
  conv_rhs => rw [show A.getLast hne' = (A.take j ++ A.drop j).getLast
    (by rw [List.take_append_drop]; exact hne') from by
      congr 1
      rw [List.take_append_drop]]
  rw [List.getLast_append]
  rw [dif_neg (by simp [List.isEmpty_eq_false, hne])]

/-- C5: with at least `n+1` stored rows (distinct primary keys, `r` the
most recent: maximal in `(session, line)`), `get_tail(n,
include_latest=false)` fetches the `n+1` most-recent rows in
`(session desc, line desc)` order, drops the single most recent one,
and returns the remaining `n` entries re-ordered ascending — so the
most-recently-stored entry is never among them — while
`get_tail(n, include_latest=true)` does include it. -/
theorem get_tail_drops_latest (d : DBState) (n : Nat) (raw output : Bool)
    (r : HRow) (hnd : NodupKeys d.history)
    (hlen : n + 1 ≤ d.history.length) (hr : r ∈ d.history)
    (hmax : ∀ x ∈ d.history, rowLE x r) :
    acc_get_tail (some d) n raw output false =
      (((List.insertionSort rowLE d.history).drop
          (d.history.length - (n + 1))).dropLast).map
        (fmtRow d.output_history raw output) ∧
    (acc_get_tail (some d) n raw output false).length = n ∧
    (∀ t ∈ acc_get_tail (some d) n raw output false, (t.1, t.2.1) ≠ keyOf r) ∧
    (1 ≤ n →
      fmtRow d.output_history raw output r ∈ acc_get_tail (some d) n raw output true) := by
  have hA : (List.insertionSort rowLE d.history).length = d.history.length :=
    List.length_insertionSort rowLE d.history
  have hAne : List.insertionSort rowLE d.history ≠ [] := by
    rw [← List.length_pos, hA]
    omega
  have hndA : NodupKeys (List.insertionSort rowLE d.history) :=
    nodupKeys_insertionSort d.history hnd
  have hlast : (List.insertionSort rowLE d.history).getLast hAne = r :=
    getLast_insertionSort_eq_max d.history r hnd hr hmax hAne
  refine ⟨acc_get_tail_false_eq d n raw output, ?_, ?_, ?_⟩
  · rw [acc_get_tail_false_eq d n raw output]
    simp only [List.length_map, List.length_dropLast, List.length_drop, hA]
    omega
  · intro t ht
    rw [acc_get_tail_false_eq d n raw output] at ht
    obtain ⟨x, hx, hfmt⟩ := List.mem_map.mp ht
    have hdropne : (List.insertionSort rowLE d.history).drop
        (d.history.length - (n + 1)) ≠ [] := by
      rw [← List.length_pos, List.length_drop, hA]
      omega
    have hxA : x ∈ (List.insertionSort rowLE d.history).dropLast :=
      dropLast_drop_subset _ _ hdropne x hx
    have hkey := mem_dropLast_key_ne _ hndA hAne x hxA
    rw [hlast] at hkey
    rw [← hfmt]
    show keyOf x ≠ keyOf r
    exact hkey
  · intro hn
    rw [acc_get_tail_true_eq d n raw output]
    have hdropne : (List.insertionSort rowLE d.history).drop
        (d.history.length - n) ≠ [] := by
      rw [← List.length_pos, List.length_drop, hA]
      omega
    have : r ∈ (List.insertionSort rowLE d.history).drop (d.history.length - n) := by
      rw [← getLast_drop_eq _ _ hdropne hAne] at hlast
      rw [← hlast]
      exact List.getLast_mem hdropne
    exact List.mem_map.mpr ⟨r, this, rfl⟩

/-- Witness for `get_tail_drops_latest` on a three-row table: the most
recent row `(2, 1)` is dropped with `include_latest=false` and present
with `include_latest=true`. -/
theorem get_tail_drops_latest_witness :
    acc_get_tail (some ⟨3, [1, 2], [⟨1, 1, "a", "A"⟩, ⟨1, 2, "b", "B"⟩,
        ⟨2, 1, "c", "C"⟩], []⟩) 2 true false false =
      (((List.insertionSort rowLE [⟨1, 1, "a", "A"⟩, ⟨1, 2, "b", "B"⟩,
          ⟨2, 1, "c", "C"⟩]).drop 0).dropLast).map (fmtRow [] true false) ∧
    (acc_get_tail (some ⟨3, [1, 2], [⟨1, 1, "a", "A"⟩, ⟨1, 2, "b", "B"⟩,
        ⟨2, 1, "c", "C"⟩], []⟩) 2 true false false).length = 2 ∧
    (∀ t ∈ acc_get_tail (some ⟨3, [1, 2], [⟨1, 1, "a", "A"⟩, ⟨1, 2, "b", "B"⟩,
        ⟨2, 1, "c", "C"⟩], []⟩) 2 true false false,
      (t.1, t.2.1) ≠ keyOf ⟨2, 1, "c", "C"⟩) ∧
    (1 ≤ 2 →
      fmtRow [] true false ⟨2, 1, "c", "C"⟩ ∈
        acc_get_tail (some ⟨3, [1, 2], [⟨1, 1, "a", "A"⟩, ⟨1, 2, "b", "B"⟩,
          ⟨2, 1, "c", "C"⟩], []⟩) 2 true false true) :=
  get_tail_drops_latest ⟨3, [1, 2], [⟨1, 1, "a", "A"⟩, ⟨1, 2, "b", "B"⟩,
      ⟨2, 1, "c", "C"⟩], []⟩ 2 true false ⟨2, 1, "c", "C"⟩
    (by unfold NodupKeys keyOf; decide) (by decide) (by decide)
    (by unfold rowLE; decide)

end IPyHist
